import Mathlib

/-!
# Verification of the capacitor-passkey-demo smart-wallet core

Shallow embedding of the passkey → smart-wallet pipeline of
`StellarSmartWalletService` (COSE key extraction, authData slicing,
contract-id derivation, stroop/XLM unit conversion, the transfer
orchestration) and of the base64url helpers in `src/js/utils.ts`,
together with theorems settling the specification's claims about them.

Byte sequences are modelled as `List Nat` with values below 256
(`Uint8Array` / `Buffer` contents), strings as Lean `String`, JS `bigint`
as `Int` (JS bigint `/` and `%` truncate toward zero, i.e. `Int.tdiv` /
`Int.tmod`).  JS `number` values are IEEE-754 binary64: they are modelled
as the exact rationals the doubles denote, with the rounding step of each
arithmetic operation made explicit (`roundToDouble`, round-to-nearest
ties-to-even over a 53-bit significand), so the unit-converter theorems
are about the program's actual float results, not an exact-real
idealisation.
-/

deriving instance DecidableEq for Except

namespace PasskeyDemo

/-! ## Decimal rendering helpers

Model of JavaScript `BigInt.prototype.toString()` (base 10): most
significant digit first.  The fuel argument makes the recursion
structural so that concrete values reduce in the kernel; `fuel = n`
always suffices since `n / 10 < n` for `n ≠ 0`. -/

def decDigitChar (d : Nat) : Char := Char.ofNat (48 + d)

def decToChars : Nat → Nat → List Char
  | 0, _ => []
  | fuel + 1, n => if n = 0 then [] else decToChars fuel (n / 10) ++ [decDigitChar (n % 10)]

/-- Decimal representation of a natural number (model of `toString()`). -/
def decRepr (n : Nat) : String := if n = 0 then "0" else String.mk (decToChars n n)

/-- Decimal representation of an integer, with a leading minus sign when
negative (model of `BigInt.prototype.toString()`). -/
def intRepr (n : Int) : String :=
  if n < 0 then "-" ++ decRepr n.natAbs else decRepr n.natAbs

/-! ## Generic string helpers modelling JS string methods -/

/-- The list with every trailing occurrence of `c` removed: model of the
JS replace of a trailing run of a character with the empty string. -/
def stripTrailing (c : Char) (l : List Char) : List Char :=
  (l.reverse.dropWhile (· == c)).reverse

/-- Model of `String.prototype.padStart(7, '0')`. -/
def padStart7 (s : String) : String :=
  String.mk (List.replicate (7 - s.length) '0' ++ s.data)

/-! ## COSE key extraction
(`StellarSmartWalletService.extractRawPublicKeyFromAuthData`, the
dispatch over the decoded COSE map, part_000 lines 200–265.)

A decoded COSE map (`Map<number, unknown>` produced by the CBOR decoder)
is modelled as a function from integer labels to optional values; a value
is either an integer or a byte string, the only shapes the service's
claims exercise. -/

inductive CoseVal where
  | int (n : Int)
  | bytes (bs : List Nat)
deriving DecidableEq

/-- JS truthiness of `coseKey.get(label)`: `undefined` (absent) and the
number `0` are falsy; a `Uint8Array` is truthy even when empty. -/
def truthyOpt : Option CoseVal → Bool
  | none => false
  | some (.int n) => n != 0
  | some (.bytes _) => true

inductive KeyError where
  /-- models `throw new Error("Malformed ES256 COSE key: missing x or y")` -/
  | malformedES256
  /-- models `throw new Error("Malformed RS256 COSE key: missing n or e")` -/
  | malformedRS256
  /-- models the runtime error the typed-array operations raise when a
  truthy coordinate value is not a byte string -/
  | typeError
  /-- models the unsupported-key throw, carrying the raw looked-up
  key-type and algorithm values -/
  | unsupported (kty alg : Option CoseVal)
deriving DecidableEq

/-- The (kty, alg) dispatch and key assembly of
`extractRawPublicKeyFromAuthData`, applied to the decoded COSE map.
ES256 emits `0x04 ‖ x ‖ y`; RS256 emits `n ‖ e`; anything else throws
the "Unsupported COSE key" error. The presence checks are JS-truthiness
checks (`if (!x || !y)` / `if (!n || !e)`) exactly as in the source. -/
def extractRawPublicKeyFromCose (m : Int → Option CoseVal) :
    Except KeyError (List Nat) :=
  if m 1 = some (.int 2) ∧ m 3 = some (.int (-7)) then
    if truthyOpt (m (-2)) && truthyOpt (m (-3)) then
      match m (-2), m (-3) with
      | some (.bytes x), some (.bytes y) => .ok (0x04 :: (x ++ y))
      | _, _ => .error .typeError
    else .error .malformedES256
  else if m 1 = some (.int 3) ∧ m 3 = some (.int (-257)) then
    if truthyOpt (m (-1)) && truthyOpt (m (-2)) then
      match m (-1), m (-2) with
      | some (.bytes n), some (.bytes e) => .ok (n ++ e)
      | _, _ => .error .typeError
    else .error .malformedRS256
  else .error (.unsupported (m 1) (m 3))

/-! ## AuthData slicing
(`extractRawPublicKeyFromAuthData`, part_000 lines 136–166: the
fixed-layout walk over the authenticator-data bytes up to the COSE key
region.) -/

/-- The two failures of the slicing phase; the specification groups both
under `MalformedAuthData`. -/
inductive MalformedAuthData where
  /-- models the `RangeError` that `DataView.getUint16` raises when the
  buffer is too short to hold the two length bytes at offset 53 -/
  | rangeError
  /-- models `throw new Error("COSE key not found in authData")` -/
  | coseKeyNotFound
deriving DecidableEq

/-- The big-endian 16-bit credential-id length declared at offset 53
(`view.getUint16(53)`). -/
def declaredCredIdLen (buf : List Nat) : Nat :=
  256 * buf.getD 53 0 + buf.getD 54 0

/-- The slicing phase of `extractRawPublicKeyFromAuthData`: skip the
32-byte rp-id hash, 1 flags byte, 4 counter bytes, 16 AAGUID bytes, read
the 2-byte credential-id length, skip the credential id, and return the
remainder (the COSE key region).  `DataView.getUint16(53)` needs bytes
53 and 54, so any buffer shorter than 55 bytes makes it throw a
`RangeError`; an empty remainder throws "COSE key not found". -/
def coseKeySliceOfAuthData (buf : List Nat) :
    Except MalformedAuthData (List Nat) :=
  if buf.length < 55 then .error .rangeError
  else
    let coseKeyBytes := buf.drop (55 + declaredCredIdLen buf)
    if coseKeyBytes.length = 0 then .error .coseKeyNotFound
    else .ok coseKeyBytes

/-! ## Contract-id derivation
(`StellarSmartWalletService.deriveContractIdFromPasskeyId`, part_000
lines 280–304.)

The SDK primitives the derivation composes (SHA-256, UTF-8 encoding of
strings, XDR serialisation of the preimage, strkey contract encoding,
parsing the deployer address) are external pure functions; they are
abstracted as a bundle of function parameters.  The derivation itself
takes no ledger state of any kind: its output is a function of the
credential id, the deployer key and the network passphrase alone. -/

structure HashIdPreimageContractId (Addr : Type) where
  networkId : List Nat
  address : Addr
  salt : List Nat
deriving DecidableEq

structure LedgerPrimitives (Addr : Type) where
  /-- model of `StellarSdk.hash` (SHA-256) -/
  hash : List Nat → List Nat
  /-- model of `Buffer.from(string)` (UTF-8 bytes) -/
  bufferFrom : String → List Nat
  /-- model of `StellarSdk.Address.fromString(...).toScAddress()` -/
  addressFromString : String → Addr
  /-- model of `HashIdPreimage.envelopeTypeContractId(...).toXDR()` -/
  preimageToXdr : HashIdPreimageContractId Addr → List Nat
  /-- model of `StellarSdk.StrKey.encodeContract` -/
  encodeContract : List Nat → String

/-- The derivation, step for step:
`salt = hash(credentialId)`, deployer address from the submitter public
key, `networkId = hash(networkPassphrase)`, build the
contract-id-from-address preimage, serialise it, hash it and strkey-encode
the result. -/
def deriveContractIdFromPasskeyId {Addr : Type} (P : LedgerPrimitives Addr)
    (submitterPublicKey networkPassphrase base64CredentialId : String) : String :=
  let salt := P.hash (P.bufferFrom base64CredentialId)
  let submitterAddress := P.addressFromString submitterPublicKey
  let networkId := P.hash (P.bufferFrom networkPassphrase)
  let preimage : HashIdPreimageContractId Addr :=
    { networkId := networkId, address := submitterAddress, salt := salt }
  let contractHash := P.hash (P.preimageToXdr preimage)
  P.encodeContract contractHash

/-! ## Unit conversion
(`StellarSmartWalletService.stroopsToXlm` / `xlmToStroops`, part_000
lines 327–337.) -/

/-- Model of `stroopsToXlm`: JS bigint `/` and `%` truncate toward zero, hence
`Int.tdiv` / `Int.tmod`; the remainder is rendered, left-padded to 7
digits with `'0'`, and stripped of trailing zeros; the fractional part is
appended only when the stripped string is non-empty. -/
def stroopsToXlm (stroops : Int) : String :=
  let whole := Int.tdiv stroops 10000000
  let fraction := Int.tmod stroops 10000000
  let fractionStr := String.mk (stripTrailing '0' (padStart7 (intRepr fraction)).data)
  if fractionStr ≠ "" then intRepr whole ++ "." ++ fractionStr else intRepr whole

/-- Rendering of a non-negative subunit count following the
specification's words (§4.4): integer quotient and remainder by the scale
factor, remainder as a 7-digit zero-padded fraction with trailing zeros
stripped, fractional part omitted entirely when the remainder is zero.
Stated over `Nat` because the specification's contract restricts
`toBaseUnit` to non-negative subunit counts. -/
def toBaseUnitSpec (n : Nat) : String :=
  let q := n / 10000000
  let r := n % 10000000
  if r = 0 then decRepr q
  else decRepr q ++ "." ++ String.mk (stripTrailing '0' (padStart7 (decRepr r)).data)

/-- Round a rational to the nearest integer, ties to even: the rounding
mode IEEE-754 applies to the significand of every arithmetic result. -/
def roundTiesEven (q : ℚ) : ℤ :=
  if q - ⌊q⌋ < 1 / 2 then ⌊q⌋
  else if 1 / 2 < q - ⌊q⌋ then ⌊q⌋ + 1
  else if ⌊q⌋ % 2 = 0 then ⌊q⌋ else ⌊q⌋ + 1

/-- Round an exact real to the nearest IEEE-754 binary64 value
(round-to-nearest, ties-to-even): pick the binade exponent `e` so the
significand `q / 2^e` lies in `[2^52, 2^53)` and round it to an integer.
This is the rounding JS applies to the result of every `number`
multiplication.  Overflow to infinity and the coarser granularity of
subnormals lie far outside the magnitudes any claim exercises and are
not modelled (the exponent range here is unbounded). -/
def roundToDouble (q : ℚ) : ℚ :=
  if q = 0 then 0
  else
    let e : ℤ := Int.log 2 |q| - 52
    roundTiesEven (q / 2 ^ e) * 2 ^ e

/-- Model of `Math.round` on the exact value of a double: the floor of
`x + 1/2` (ties toward positive infinity, matching the ECMAScript
definition, which is stated over the exact mathematical value). -/
def jsMathRound (x : ℚ) : ℤ := ⌊x + 1 / 2⌋

/-- Model of `xlmToStroops`, which is
`Math.round(Number(xlm) * 10_000_000)`: the argument is a double (an
exact rational), the product is computed in binary64 — one
`roundToDouble` on the exact product, since 10,000,000 is exactly
representable — and `Math.round` takes the rounded product to the
nearest integer.  The source performs no validation whatsoever — zero
and negative amounts are converted like any other value. -/
def xlmToStroops (xlm : ℚ) : ℤ := jsMathRound (roundToDouble (xlm * 10000000))

/-! ## Transfer orchestration (`StellarSmartWalletService.addFunds`,
part_000 lines 347–430.)

The transaction values the SDK builds are opaque to the orchestration
logic; they are abstracted as type parameters, and the external calls as
an environment of functions.  `simulateTransaction`'s response either
carries transaction data (`'transactionData' in simulationRs`) or not;
the orchestration records which network endpoints it invoked, in order,
so that "send is never reached after a failed simulation" is a statement
about the produced call trace. -/

inductive RpcEvent where
  | simulate
  | send
deriving DecidableEq

inductive TransferError where
  /-- `throw new Error('Contract ID is required')` -/
  | contractIdRequired
  /-- `throw new Error('Amount to transfer is required')` -/
  | amountRequired
  /-- `throw new Error('Simulation failed')` -/
  | simulationFailed
deriving DecidableEq

structure TransferEnv (Tx TxData SendResult : Type) where
  /-- lines 357–393: build the provisional transaction for a recipient
  contract and a stroop amount, auth entries pre-signed, fee `'0'` -/
  buildTmpTx : String → Int → Tx
  /-- model of `rpcClient.simulateTransaction`; `none` models a response
  lacking `transactionData` -/
  simulate : Tx → Option TxData
  /-- model of the clone-with-fee-and-soroban-data rebuild plus
  re-signing: the real, resource-priced transaction -/
  rebuild : Tx → TxData → Tx
  /-- model of `buildFeeBumpTransaction` plus signing of the wrapper -/
  feeBump : Tx → Tx
  /-- model of `rpcClient.sendTransaction` -/
  send : Tx → SendResult

/-- Model of `addFunds`: the required-argument checks, the stroop conversion, the
simulate → re-price → fee-bump → send chain, together with the trace of
network submissions it performs.  A simulation response without
transaction data aborts with `simulationFailed` before any rebuild,
fee-bump or send. -/
def addFunds {Tx TxData SendResult : Type}
    (env : TransferEnv Tx TxData SendResult)
    (contractId : Option String) (amountToTransferXlm : Option ℚ) :
    Except TransferError SendResult × List RpcEvent :=
  match contractId with
  | none => (.error .contractIdRequired, [])
  | some cid =>
    match amountToTransferXlm with
    | none => (.error .amountRequired, [])
    | some amt =>
      let amountToTransfer := xlmToStroops amt
      let tmpTx := env.buildTmpTx cid amountToTransfer
      match env.simulate tmpTx with
      | none => (.error .simulationFailed, [.simulate])
      | some txData =>
        let realTransaction := env.rebuild tmpTx txData
        let feeBumpTx := env.feeBump realTransaction
        (.ok (env.send feeBumpTx), [.simulate, .send])

/-! ## base64url helpers (`src/js/utils.ts` lines 5–26) -/

def b64Alphabet : List Char :=
  "ABCDEFGHIJKLMNOPQRSTUVWXYZabcdefghijklmnopqrstuvwxyz0123456789+/".data

/-- The base64 digit for a 6-bit value. -/
def b64Char (n : Nat) : Char := b64Alphabet.getD n 'A'

/-- The 6-bit value of a base64 digit. -/
def b64Index (c : Char) : Nat := b64Alphabet.indexOf c

/-- Model of `btoa` on a byte sequence: 3-byte groups to 4 base64 digits, a final
1-byte group to 2 digits and `==`, a final 2-byte group to 3 digits and
`=`. -/
def btoaBytes : List Nat → List Char
  | [] => []
  | [a] => [b64Char (a / 4), b64Char (a % 4 * 16), '=', '=']
  | [a, b] => [b64Char (a / 4), b64Char (a % 4 * 16 + b / 16), b64Char (b % 16 * 4), '=']
  | a :: b :: c :: rest =>
      b64Char (a / 4) :: b64Char (a % 4 * 16 + b / 16) :: b64Char (b % 16 * 4 + c / 64) ::
        b64Char (c % 64) :: btoaBytes rest

/-- Model of `atob` on well-formed padded base64: 4-digit groups to 3 bytes, with
the final group yielding 1 byte under `==` padding and 2 bytes under `=`
padding. -/
def atobBytes : List Char → List Nat
  | a :: b :: c :: d :: rest =>
    if c = '=' ∧ d = '=' ∧ rest = [] then
      [b64Index a * 4 + b64Index b / 16]
    else if d = '=' ∧ rest = [] then
      [b64Index a * 4 + b64Index b / 16, b64Index b % 16 * 16 + b64Index c / 4]
    else
      (b64Index a * 4 + b64Index b / 16) ::
        (b64Index b % 16 * 16 + b64Index c / 4) ::
          (b64Index c % 4 * 64 + b64Index d) :: atobBytes rest
  | _ => []

/-- The plus-to-minus and slash-to-underscore substitutions: the two
`replace` calls of `toBase64Url`. -/
def urlify (c : Char) : Char :=
  if c = '+' then '-' else if c = '/' then '_' else c

/-- The minus-to-plus and underscore-to-slash substitutions: the two
`replace` calls of `base64urlToArrayBuffer`. -/
def deurlify (c : Char) : Char :=
  if c = '-' then '+' else if c = '_' then '/' else c

/-- Model of `toBase64Url`: `btoa` the bytes, make the digits URL-safe,
strip all trailing `=` padding. -/
def toBase64Url (bytes : List Nat) : String :=
  String.mk (stripTrailing '=' ((btoaBytes bytes).map urlify))

/-- Model of `base64urlToArrayBuffer`: undo the URL-safe digit substitution, pad
with `=` up to the next multiple of four of the input length, `atob` the
result. -/
def base64urlToArrayBuffer (s : String) : List Nat :=
  let base64 :=
    (s.data.map deurlify) ++
      List.replicate ((s.length + 3) / 4 * 4 - s.length) '='
  atobBytes base64

/-! ## Concrete inputs used by the witness theorems -/

/-- A well-formed ES256 COSE map with 32-byte coordinates. -/
def es256Map : Int → Option CoseVal := fun l =>
  if l = 1 then some (.int 2)
  else if l = 3 then some (.int (-7))
  else if l = -2 then some (.bytes (List.replicate 32 5))
  else if l = -3 then some (.bytes (List.replicate 32 6))
  else none

/-- An ES256 COSE map whose x coordinate is an empty byte string. -/
def es256EmptyXMap : Int → Option CoseVal := fun l =>
  if l = 1 then some (.int 2)
  else if l = 3 then some (.int (-7))
  else if l = -2 then some (.bytes [])
  else if l = -3 then some (.bytes [20])
  else none

/-- An ES256 COSE map whose x coordinate is absent. -/
def es256MissingXMap : Int → Option CoseVal := fun l =>
  if l = 1 then some (.int 2)
  else if l = 3 then some (.int (-7))
  else if l = -3 then some (.bytes [20])
  else none

/-- A COSE map with an OKP/EdDSA key, outside the two supported pairs. -/
def okpMap : Int → Option CoseVal := fun l =>
  if l = 1 then some (.int 1)
  else if l = 3 then some (.int (-8))
  else none

/-- A concrete primitive bundle (stand-ins for the SDK's hash, UTF-8,
XDR and strkey functions) used to instantiate the derivation theorem. -/
def testPrimitives : LedgerPrimitives String where
  hash := fun bs => [bs.length % 256, (bs.foldl (· + ·) 0) % 256]
  bufferFrom := fun s => s.data.map Char.toNat
  addressFromString := fun s => s
  preimageToXdr := fun p => p.networkId ++ p.address.data.map Char.toNat ++ p.salt
  encodeContract := fun bs => "C" ++ decRepr bs.length

/-- A transfer environment whose simulation endpoint returns a response
without transaction data. -/
def simFailEnv : TransferEnv Unit Unit Unit where
  buildTmpTx := fun _ _ => ()
  simulate := fun _ => none
  rebuild := fun _ _ => ()
  feeBump := fun _ => ()
  send := fun _ => ()

/-! ## Helper lemmas: decimal rendering and trailing-zero stripping -/

theorem decToChars_zero (fuel : Nat) : decToChars fuel 0 = [] := by
  cases fuel <;> simp [decToChars]

theorem decToChars_has_nonzero_digit :
    ∀ fuel n : Nat, n ≠ 0 → n ≤ fuel → ∃ c ∈ decToChars fuel n, c ≠ '0' := by
  intro fuel
  induction fuel with
  | zero => intro n h hle; omega
  | succ fuel ih =>
    intro n h hle
    rw [decToChars, if_neg h]
    by_cases h10 : n / 10 = 0
    · rw [h10, decToChars_zero]
      refine ⟨decDigitChar (n % 10), by simp, ?_⟩
      have hn : n < 10 := by omega
      rw [Nat.mod_eq_of_lt hn]
      have hd : ∀ d : Nat, d < 10 → d ≠ 0 → decDigitChar d ≠ '0' := by decide
      exact hd n hn h
    · have hle2 : n / 10 ≤ fuel := by omega
      obtain ⟨c, hc, hcne⟩ := ih (n / 10) h10 hle2
      exact ⟨c, by simp [hc], hcne⟩

theorem stripTrailing_eq_nil_iff (c : Char) (l : List Char) :
    stripTrailing c l = [] ↔ ∀ x ∈ l, x = c := by
  unfold stripTrailing
  simp [List.dropWhile_eq_nil_iff]

theorem intRepr_ofNat (n : Nat) : intRepr (n : Int) = decRepr n := by
  unfold intRepr
  rw [if_neg (by omega), Int.natAbs_ofNat]

theorem fractionStr_ne_empty (r : Nat) (h : r ≠ 0) :
    String.mk (stripTrailing '0' (padStart7 (decRepr r)).data) ≠ "" := by
  intro hc
  have h1 : stripTrailing '0' (padStart7 (decRepr r)).data = [] := by
    simpa using congrArg String.data hc
  rw [stripTrailing_eq_nil_iff] at h1
  obtain ⟨c, hc1, hc2⟩ := decToChars_has_nonzero_digit r r h (le_refl r)
  apply hc2
  apply h1
  show c ∈ (padStart7 (decRepr r)).data
  have hdata : (decRepr r).data = decToChars r r := by
    rw [decRepr, if_neg h]
  unfold padStart7
  show c ∈ List.replicate (7 - (decRepr r).length) '0' ++ (decRepr r).data
  rw [hdata]
  exact List.mem_append_right _ hc1

/-! ## Helper lemmas: binary64 rounding -/

theorem roundTiesEven_eq (q : ℚ) (m : ℤ) (h : |q - m| < 1 / 2) :
    roundTiesEven q = m := by
  unfold roundTiesEven
  rw [abs_lt] at h
  by_cases hq : (m : ℚ) ≤ q
  · have hf : ⌊q⌋ = m := by
      rw [Int.floor_eq_iff]
      constructor
      · exact hq
      · linarith [h.2]
    rw [hf]
    rw [if_pos (by linarith [h.2])]
  · have hf : ⌊q⌋ = m - 1 := by
      rw [Int.floor_eq_iff]
      push_cast
      constructor
      · linarith [h.1]
      · linarith
    rw [hf]
    rw [if_neg (by push_cast; linarith [h.1]), if_pos (by push_cast; linarith [h.1])]
    omega

theorem roundTiesEven_err (q : ℚ) : |(roundTiesEven q : ℚ) - q| ≤ 1 / 2 := by
  unfold roundTiesEven
  have h1 := Int.floor_le q
  have h2 := Int.lt_floor_add_one q
  by_cases hr : q - ⌊q⌋ < 1 / 2
  · rw [if_pos hr, abs_le]
    constructor <;> linarith
  · rw [if_neg hr]
    by_cases hr2 : 1 / 2 < q - ⌊q⌋
    · rw [if_pos hr2, abs_le]
      constructor <;> push_cast <;> linarith
    · by_cases he : ⌊q⌋ % 2 = 0
      · rw [if_neg hr2, if_pos he, abs_le]
        constructor <;> linarith
      · rw [if_neg hr2, if_neg he, abs_le]
        constructor <;> push_cast <;> linarith

theorem roundToDouble_eq_of (q : ℚ) (e : ℤ) (h0 : q ≠ 0)
    (h1 : (4503599627370496 : ℚ) ≤ |q| / 2 ^ e)
    (h2 : |q| / 2 ^ e < 9007199254740992) :
    roundToDouble q = roundTiesEven (q / 2 ^ e) * 2 ^ e := by
  have habs : 0 < |q| := abs_pos.mpr h0
  have hpow : (0:ℚ) < 2 ^ e := by positivity
  have hdn : (2:ℚ) ^ (e + 52) ≤ |q| := by
    rw [le_div_iff₀ hpow] at h1
    calc (2:ℚ) ^ (e + 52) = 2 ^ e * 2 ^ (52:ℤ) := by
          rw [← zpow_add₀ (by norm_num : (2:ℚ) ≠ 0)]
      _ = 4503599627370496 * 2 ^ e := by norm_num; ring
      _ ≤ |q| := h1
  have hup : |q| < (2:ℚ) ^ (e + 53) := by
    rw [div_lt_iff₀ hpow] at h2
    calc |q| < 9007199254740992 * 2 ^ e := h2
      _ = 2 ^ e * 2 ^ (53:ℤ) := by norm_num; ring
      _ = 2 ^ (e + 53) := by
          rw [← zpow_add₀ (by norm_num : (2:ℚ) ≠ 0)]
  have ha : e + 52 ≤ Int.log 2 |q| := by
    rw [← Int.zpow_le_iff_le_log (by norm_num) habs]
    push_cast
    exact hdn
  have hb : Int.log 2 |q| < e + 53 := by
    rw [← Int.lt_zpow_iff_log_lt (by norm_num) habs]
    push_cast
    exact hup
  have hlog : Int.log 2 |q| = e + 52 := by omega
  unfold roundToDouble
  rw [if_neg h0, hlog]
  have he52 : e + 52 - 52 = e := by ring
  rw [he52]

theorem roundToDouble_of_norm (q : ℚ) (m e : ℤ) (h0 : q ≠ 0)
    (h1 : (4503599627370496 : ℚ) ≤ |q| / 2 ^ e)
    (h2 : |q| / 2 ^ e < 9007199254740992)
    (h3 : |q / 2 ^ e - m| < 1 / 2) :
    roundToDouble q = m * 2 ^ e := by
  rw [roundToDouble_eq_of q e h0 h1 h2, roundTiesEven_eq _ m h3]

theorem roundToDouble_of_norm_pos (q : ℚ) (m e : ℤ) (hq : 0 < q)
    (h1 : (4503599627370496 : ℚ) ≤ q / 2 ^ e)
    (h2 : q / 2 ^ e < 9007199254740992)
    (h3a : (m : ℚ) - 1 / 2 < q / 2 ^ e)
    (h3b : q / 2 ^ e < (m : ℚ) + 1 / 2) :
    roundToDouble q = m * 2 ^ e := by
  apply roundToDouble_of_norm q m e (ne_of_gt hq)
  · rwa [abs_of_pos hq]
  · rwa [abs_of_pos hq]
  · rw [abs_lt]
    constructor <;> linarith

theorem roundToDouble_of_norm_neg (q : ℚ) (m e : ℤ) (hq : q < 0)
    (h1 : (4503599627370496 : ℚ) ≤ -q / 2 ^ e)
    (h2 : -q / 2 ^ e < 9007199254740992)
    (h3a : (m : ℚ) - 1 / 2 < q / 2 ^ e)
    (h3b : q / 2 ^ e < (m : ℚ) + 1 / 2) :
    roundToDouble q = m * 2 ^ e := by
  apply roundToDouble_of_norm q m e (ne_of_lt hq)
  · rwa [abs_of_neg hq]
  · rwa [abs_of_neg hq]
  · rw [abs_lt]
    constructor <;> linarith

/-- Relative-error bound of one binary64 rounding: the result is within
half an ulp, i.e. within `|q| / 2^53`, of the exact value. -/
theorem roundToDouble_err (q : ℚ) : |roundToDouble q - q| ≤ |q| / 2 ^ 53 := by
  by_cases h0 : q = 0
  · subst h0
    simp [roundToDouble]
  · have habs : 0 < |q| := abs_pos.mpr h0
    have hlow : (2 : ℚ) ^ (Int.log 2 |q|) ≤ |q| := by
      have h := Int.zpow_log_le_self (b := 2) (R := ℚ) (by norm_num) habs
      push_cast at h
      exact h
    unfold roundToDouble
    rw [if_neg h0]
    set e : ℤ := Int.log 2 |q| - 52 with he
    have hpow : (0:ℚ) < 2 ^ e := by positivity
    have herr := roundTiesEven_err (q / 2 ^ e)
    have hstep : |(roundTiesEven (q / 2 ^ e) : ℚ) * 2 ^ e - q|
        = |(roundTiesEven (q / 2 ^ e) : ℚ) - q / 2 ^ e| * 2 ^ e := by
      have hq : (roundTiesEven (q / 2 ^ e) : ℚ) * 2 ^ e - q
          = ((roundTiesEven (q / 2 ^ e) : ℚ) - q / 2 ^ e) * 2 ^ e := by
        field_simp
      rw [hq, abs_mul, abs_of_pos hpow]
    rw [hstep]
    have hmul : |(roundTiesEven (q / 2 ^ e) : ℚ) - q / 2 ^ e| * 2 ^ e
        ≤ 1 / 2 * 2 ^ e := mul_le_mul_of_nonneg_right herr (le_of_lt hpow)
    refine le_trans hmul ?_
    rw [le_div_iff₀ (by positivity : (0:ℚ) < 2 ^ 53)]
    have hsplit : (2:ℚ) ^ (Int.log 2 |q|) = 2 ^ e * 4503599627370496 := by
      rw [he]
      calc (2:ℚ) ^ (Int.log 2 |q|) = 2 ^ (Int.log 2 |q| - 52 + 52) := by ring_nf
        _ = 2 ^ (Int.log 2 |q| - 52) * 2 ^ (52:ℤ) := by
            rw [← zpow_add₀ (by norm_num : (2:ℚ) ≠ 0)]
        _ = 2 ^ (Int.log 2 |q| - 52) * 4503599627370496 := by norm_num
    have hfin : 1 / 2 * (2:ℚ) ^ e * 2 ^ 53 = 2 ^ e * 4503599627370496 := by
      norm_num
      ring
    rw [hfin, ← hsplit]
    exact hlow

/-! ## Helper lemmas: concrete binary64 values of the unit-converter
claims.  The doubles nearest to the decimal amounts, and the doubles the
products round to, were computed from the IEEE-754 binade decompositions
and are verified here against the model. -/

theorem roundToDouble_zero : roundToDouble 0 = 0 := by
  simp [roundToDouble]

theorem roundToDouble_neg_ten_million : roundToDouble (-10000000) = -10000000 := by
  have h := roundToDouble_of_norm_neg (-10000000) (-5368709120000000) (-29)
    (by norm_num) (by norm_num) (by norm_num) (by norm_num) (by norm_num)
  rw [h]
  norm_num

theorem roundToDouble_fifty : roundToDouble 50 = 50 := by
  have h := roundToDouble_of_norm_pos 50 7036874417766400 (-47)
    (by norm_num) (by norm_num) (by norm_num) (by norm_num) (by norm_num)
  rw [h]
  norm_num

theorem roundToDouble_five_hundred_million :
    roundToDouble 500000000 = 500000000 := by
  have h := roundToDouble_of_norm_pos 500000000 8388608000000000 (-24)
    (by norm_num) (by norm_num) (by norm_num) (by norm_num) (by norm_num)
  rw [h]
  norm_num

/-- The double nearest to the decimal 0.0000001 is
`7555786372591432 * 2 ^ (-76)`. -/
theorem roundToDouble_one_ten_millionth :
    roundToDouble (1 / 10000000) = 944473296573929 / 9444732965739290427392 := by
  have h := roundToDouble_of_norm_pos (1 / 10000000) 7555786372591432 (-76)
    (by norm_num) (by norm_num) (by norm_num) (by norm_num) (by norm_num)
  rw [h]
  norm_num

/-- The exact product of that double with 10,000,000 lies just below 1
and rounds up to exactly 1 (the significand rounds up to `2^53`). -/
theorem roundToDouble_one_ten_millionth_product :
    roundToDouble (73786976294838203125 / 73786976294838206464) = 1 := by
  have h := roundToDouble_of_norm_pos (73786976294838203125 / 73786976294838206464)
    9007199254740992 (-53)
    (by norm_num) (by norm_num) (by norm_num) (by norm_num) (by norm_num)
  rw [h]
  norm_num

/-- The double nearest to the decimal 92233720368.5477 is
`6044629098073142 * 2 ^ (-16) = 92233720368.547698974609375`. -/
theorem roundToDouble_boundary_amount :
    roundToDouble (922337203685477 / 10000) = 3022314549036571 / 32768 := by
  have h := roundToDouble_of_norm_pos (922337203685477 / 10000) 6044629098073142 (-16)
    (by norm_num) (by norm_num) (by norm_num) (by norm_num) (by norm_num)
  rw [h]
  norm_num

/-- The exact product of that double with 10,000,000 is
`922337203685476989.74609375`, whose binary64 rounding is exactly
`922337203685476992` (ulp 128 in this binade). -/
theorem roundToDouble_boundary_product :
    roundToDouble (236118324143482109375 / 256) = 922337203685476992 := by
  have h := roundToDouble_of_norm_pos (236118324143482109375 / 256)
    7205759403792789 7
    (by norm_num) (by norm_num) (by norm_num) (by norm_num) (by norm_num)
  rw [h]
  norm_num

theorem xlmToStroops_zero : xlmToStroops 0 = 0 := by
  unfold xlmToStroops jsMathRound
  have h0 : (0:ℚ) * 10000000 = 0 := by norm_num
  rw [h0, roundToDouble_zero]
  norm_num

theorem xlmToStroops_neg_one : xlmToStroops (-1) = -10000000 := by
  unfold xlmToStroops jsMathRound
  have h0 : (-1:ℚ) * 10000000 = -10000000 := by norm_num
  rw [h0, roundToDouble_neg_ten_million]
  norm_num

theorem xlmToStroops_fifty : xlmToStroops 50 = 500000000 := by
  unfold xlmToStroops jsMathRound
  have h0 : (50:ℚ) * 10000000 = 500000000 := by norm_num
  rw [h0, roundToDouble_five_hundred_million]
  norm_num

theorem xlmToStroops_one_ten_millionth_double :
    xlmToStroops (944473296573929 / 9444732965739290427392) = 1 := by
  unfold xlmToStroops jsMathRound
  have h0 : (944473296573929 / 9444732965739290427392 : ℚ) * 10000000
      = 73786976294838203125 / 73786976294838206464 := by norm_num
  rw [h0, roundToDouble_one_ten_millionth_product]
  norm_num

theorem xlmToStroops_boundary_double :
    xlmToStroops (3022314549036571 / 32768) = 922337203685476992 := by
  unfold xlmToStroops jsMathRound
  have h0 : (3022314549036571 / 32768 : ℚ) * 10000000
      = 236118324143482109375 / 256 := by norm_num
  rw [h0, roundToDouble_boundary_product]
  norm_num

/-! ## Helper lemmas: base64 alphabet and encoder/decoder structure -/

theorem b64Char_mem_or (n : Nat) : b64Char n ∈ b64Alphabet ∨ b64Char n = 'A' := by
  unfold b64Char
  rw [List.getD_eq_getElem?_getD]
  cases h : b64Alphabet[n]? with
  | none => right; rfl
  | some c =>
    left
    have hm : c ∈ b64Alphabet := List.getElem?_mem h
    simpa [h] using hm

theorem b64Char_ne_eq (n : Nat) : b64Char n ≠ '=' := by
  rcases b64Char_mem_or n with h | h
  · have : ∀ c ∈ b64Alphabet, c ≠ '=' := by decide
    exact this _ h
  · rw [h]; decide

theorem deurlify_urlify_b64Char (n : Nat) :
    deurlify (urlify (b64Char n)) = b64Char n := by
  rcases b64Char_mem_or n with h | h
  · have : ∀ c ∈ b64Alphabet, deurlify (urlify c) = c := by decide
    exact this _ h
  · rw [h]; decide

theorem b64Index_b64Char : ∀ n : Nat, n < 64 → b64Index (b64Char n) = n := by decide

theorem urlify_beq_eq (c : Char) : (urlify c == '=') = (c == '=') := by
  unfold urlify
  by_cases h1 : c = '+'
  · subst h1; decide
  · by_cases h2 : c = '/'
    · subst h2; decide
    · rw [if_neg h1, if_neg h2]

theorem btoaBytes_mem (bs : List Nat) :
    ∀ c ∈ btoaBytes bs, (∃ n : Nat, c = b64Char n) ∨ c = '=' := by
  induction bs using btoaBytes.induct with
  | case1 => intro c hc; simp [btoaBytes] at hc
  | case2 a =>
    intro c hc
    simp [btoaBytes] at hc
    rcases hc with h | h | h
    · exact Or.inl ⟨_, h⟩
    · exact Or.inl ⟨_, h⟩
    · exact Or.inr h
  | case3 a b =>
    intro c hc
    simp [btoaBytes] at hc
    rcases hc with h | h | h | h
    · exact Or.inl ⟨_, h⟩
    · exact Or.inl ⟨_, h⟩
    · exact Or.inl ⟨_, h⟩
    · exact Or.inr h
  | case4 a b cc rest ih =>
    intro c hc
    simp only [btoaBytes, List.mem_cons] at hc
    rcases hc with h | h | h | h | h
    · exact Or.inl ⟨_, h⟩
    · exact Or.inl ⟨_, h⟩
    · exact Or.inl ⟨_, h⟩
    · exact Or.inl ⟨_, h⟩
    · exact ih c h

theorem stripTrailing_map (f : Char → Char) (c : Char) (l : List Char)
    (hf : ∀ x, (f x == c) = (x == c)) :
    stripTrailing c (l.map f) = (stripTrailing c l).map f := by
  unfold stripTrailing
  rw [← List.map_reverse, List.dropWhile_map]
  have hfun : ((fun x => x == c) ∘ f) = (fun x => x == c) := by
    funext x
    simp [Function.comp, hf x]
  rw [hfun, List.map_reverse]

theorem stripTrailing_length_le (c : Char) (l : List Char) :
    (stripTrailing c l).length ≤ l.length := by
  unfold stripTrailing
  calc (l.reverse.dropWhile (· == c)).reverse.length
      = (l.reverse.dropWhile (· == c)).length := by rw [List.length_reverse]
    _ ≤ l.reverse.length := (List.dropWhile_sublist _).length_le
    _ = l.length := List.length_reverse _

theorem stripTrailing_append_replicate (c : Char) (l : List Char) :
    stripTrailing c l ++
      List.replicate (l.length - (stripTrailing c l).length) c = l := by
  conv_rhs => rw [← List.reverse_reverse l,
    ← List.takeWhile_append_dropWhile (p := (· == c)) (l := l.reverse)]
  rw [List.reverse_append]
  unfold stripTrailing
  congr 1
  have hrep : l.reverse.takeWhile (· == c) =
      List.replicate (l.reverse.takeWhile (· == c)).length c := by
    apply List.eq_replicate_of_mem
    intro b hb
    have := List.mem_takeWhile_imp hb
    simpa using this
  rw [hrep, List.reverse_replicate]
  congr 1
  have hlen : (l.reverse.takeWhile (· == c)).length +
      (l.reverse.dropWhile (· == c)).length = l.length := by
    rw [← List.length_append, List.takeWhile_append_dropWhile, List.length_reverse]
  have hstrip : (stripTrailing c l).length =
      (l.reverse.dropWhile (· == c)).reverse.length := rfl
  have hrev : (l.reverse.dropWhile (· == c)).reverse.length =
      (l.reverse.dropWhile (· == c)).length := List.length_reverse _
  omega

theorem stripTrailing_append_of_ne_nil (c : Char) (l₁ l₂ : List Char)
    (h : stripTrailing c l₂ ≠ []) :
    stripTrailing c (l₁ ++ l₂) = l₁ ++ stripTrailing c l₂ := by
  have hne : l₂.reverse.dropWhile (· == c) ≠ [] := by
    intro hnil
    apply h
    unfold stripTrailing
    rw [hnil]
    rfl
  unfold stripTrailing
  rw [List.reverse_append, List.dropWhile_append]
  rw [if_neg (by simpa [List.isEmpty_iff] using hne)]
  rw [List.reverse_append, List.reverse_reverse]

theorem stripTrailing_subset (c : Char) (l : List Char) :
    ∀ x ∈ stripTrailing c l, x ∈ l := by
  intro x hx
  unfold stripTrailing at hx
  rw [List.mem_reverse] at hx
  have := (List.dropWhile_sublist (· == c)).subset hx
  simpa using this

theorem btoaBytes_length_mod4 (bs : List Nat) : (btoaBytes bs).length % 4 = 0 := by
  induction bs using btoaBytes.induct with
  | case1 => simp [btoaBytes]
  | case2 a => simp [btoaBytes]
  | case3 a b => simp [btoaBytes]
  | case4 a b c rest ih =>
    simp only [btoaBytes, List.length_cons]
    omega

theorem btoaBytes_length_pos (bs : List Nat) (h : bs ≠ []) :
    4 ≤ (btoaBytes bs).length := by
  induction bs using btoaBytes.induct with
  | case1 => exact absurd rfl h
  | case2 a => simp [btoaBytes]
  | case3 a b => simp [btoaBytes]
  | case4 a b c rest ih =>
    simp only [btoaBytes, List.length_cons]
    omega

theorem btoaBytes_strip_le2 (bs : List Nat) :
    (btoaBytes bs).length - (stripTrailing '=' (btoaBytes bs)).length ≤ 2 := by
  induction bs using btoaBytes.induct with
  | case1 => simp [btoaBytes, stripTrailing]
  | case2 a =>
    have h2 : (b64Char (a % 4 * 16) == '=') = false :=
      beq_eq_false_iff_ne.mpr (b64Char_ne_eq _)
    simp [btoaBytes, stripTrailing, List.dropWhile_cons, h2]
  | case3 a b =>
    have h3 : (b64Char (b % 16 * 4) == '=') = false :=
      beq_eq_false_iff_ne.mpr (b64Char_ne_eq _)
    simp [btoaBytes, stripTrailing, List.dropWhile_cons, h3]
  | case4 a b c rest ih =>
    by_cases hr : rest = []
    · subst hr
      have h4 : (b64Char (c % 64) == '=') = false :=
        beq_eq_false_iff_ne.mpr (b64Char_ne_eq _)
      simp [btoaBytes, stripTrailing, List.dropWhile_cons, h4]
    · have hne : stripTrailing '=' (btoaBytes rest) ≠ [] := by
        intro hnil
        have hlen := btoaBytes_length_pos rest hr
        have hz : (stripTrailing '=' (btoaBytes rest)).length = 0 := by
          rw [hnil]
          rfl
        omega
      have happ : btoaBytes (a :: b :: c :: rest) =
          [b64Char (a / 4), b64Char (a % 4 * 16 + b / 16),
            b64Char (b % 16 * 4 + c / 64), b64Char (c % 64)] ++ btoaBytes rest := by
        simp [btoaBytes]
      rw [happ, stripTrailing_append_of_ne_nil _ _ _ hne]
      simp only [List.length_append, List.length_cons, List.length_nil]
      have hle := stripTrailing_length_le '=' (btoaBytes rest)
      omega

theorem atobBytes_pad2 (a b : Char) :
    atobBytes [a, b, '=', '='] = [b64Index a * 4 + b64Index b / 16] := by
  simp [atobBytes]

theorem atobBytes_pad1 (a b c : Char) (hc : c ≠ '=') :
    atobBytes [a, b, c, '='] =
      [b64Index a * 4 + b64Index b / 16,
        b64Index b % 16 * 16 + b64Index c / 4] := by
  simp only [atobBytes]
  rw [if_neg (by simp [hc]), if_pos (by simp)]

theorem atobBytes_group (a b c d : Char) (rest : List Char)
    (hc : c ≠ '=') (hd : d ≠ '=') :
    atobBytes (a :: b :: c :: d :: rest) =
      (b64Index a * 4 + b64Index b / 16) ::
        (b64Index b % 16 * 16 + b64Index c / 4) ::
          (b64Index c % 4 * 64 + b64Index d) :: atobBytes rest := by
  simp only [atobBytes]
  rw [if_neg (by simp [hc]), if_neg (by simp [hd])]

theorem atob_btoa (bs : List Nat) (h : ∀ x ∈ bs, x < 256) :
    atobBytes (btoaBytes bs) = bs := by
  induction bs using btoaBytes.induct with
  | case1 => simp [btoaBytes, atobBytes]
  | case2 a =>
    have ha : a < 256 := h a (by simp)
    have hb : btoaBytes [a] = [b64Char (a / 4), b64Char (a % 4 * 16), '=', '='] := by
      simp [btoaBytes]
    rw [hb, atobBytes_pad2]
    rw [b64Index_b64Char _ (by omega), b64Index_b64Char _ (by omega)]
    simp only [List.cons.injEq, and_true]
    omega
  | case3 a b =>
    have ha : a < 256 := h a (by simp)
    have hb : b < 256 := h b (by simp)
    have he : btoaBytes [a, b] =
        [b64Char (a / 4), b64Char (a % 4 * 16 + b / 16), b64Char (b % 16 * 4), '='] := by
      simp [btoaBytes]
    rw [he, atobBytes_pad1 _ _ _ (b64Char_ne_eq _)]
    rw [b64Index_b64Char _ (by omega), b64Index_b64Char _ (by omega),
      b64Index_b64Char _ (by omega)]
    simp only [List.cons.injEq, and_true]
    constructor <;> omega
  | case4 a b c rest ih =>
    have ha : a < 256 := h a (by simp)
    have hb : b < 256 := h b (by simp)
    have hc : c < 256 := h c (by simp)
    have hrest : ∀ x ∈ rest, x < 256 := fun x hx => h x (by simp [hx])
    have he : btoaBytes (a :: b :: c :: rest) =
        b64Char (a / 4) :: b64Char (a % 4 * 16 + b / 16) ::
          b64Char (b % 16 * 4 + c / 64) :: b64Char (c % 64) :: btoaBytes rest := by
      simp [btoaBytes]
    rw [he, atobBytes_group _ _ _ _ _ (b64Char_ne_eq _) (b64Char_ne_eq _)]
    rw [b64Index_b64Char _ (by omega), b64Index_b64Char _ (by omega),
      b64Index_b64Char _ (by omega), b64Index_b64Char _ (by omega)]
    rw [ih hrest]
    simp only [List.cons.injEq, and_true]
    refine ⟨by omega, by omega, by omega⟩

/-! ## Claim theorems -/

/-- C1: for every decoded COSE map whose key-type label (1) is 2 (EC2)
and algorithm label (3) is -7 (ES256), with coordinate fields -2 (x) and
-3 (y) present as byte strings of exactly the curve's coordinate width
`w`, the key extractor returns exactly `0x04 ‖ x ‖ y`, of total length
`1 + 2 * w`. -/
theorem extract_es256_emits_uncompressed_point
    (m : Int → Option CoseVal) (x y : List Nat) (w : Nat)
    (hkty : m 1 = some (.int 2)) (halg : m 3 = some (.int (-7)))
    (hx : m (-2) = some (.bytes x)) (hy : m (-3) = some (.bytes y))
    (hxw : x.length = w) (hyw : y.length = w) :
    extractRawPublicKeyFromCose m = .ok (0x04 :: (x ++ y)) ∧
      (0x04 :: (x ++ y)).length = 1 + 2 * w := by
  constructor
  · unfold extractRawPublicKeyFromCose
    rw [if_pos ⟨hkty, halg⟩]
    rw [hx, hy]
    simp [truthyOpt]
  · simp only [List.length_cons, List.length_append, hxw, hyw]
    omega

/-- C1 witness: a concrete ES256 map with 32-byte coordinates. -/
theorem extract_es256_emits_uncompressed_point_witness :
    extractRawPublicKeyFromCose es256Map =
      .ok (0x04 :: (List.replicate 32 5 ++ List.replicate 32 6)) ∧
      (0x04 :: (List.replicate 32 5 ++ List.replicate 32 6)).length = 1 + 2 * 32 :=
  extract_es256_emits_uncompressed_point es256Map
    (List.replicate 32 5) (List.replicate 32 6) 32
    (by decide) (by decide) (by decide) (by decide) (by decide) (by decide)

/-- C2: the contract-identifier derivation is deterministic — two calls
of `deriveContractIdFromPasskeyId` with identical (credentialId,
deployer key, network passphrase) inputs, against the same primitive
bundle, return identical contract identifiers.  The function consumes no
ledger state at all: its only inputs are the three strings and the pure
SDK primitives. -/
theorem deriveContractId_deterministic {Addr : Type}
    (P : LedgerPrimitives Addr)
    (pk₁ pp₁ cid₁ pk₂ pp₂ cid₂ : String)
    (hpk : pk₁ = pk₂) (hpp : pp₁ = pp₂) (hcid : cid₁ = cid₂) :
    deriveContractIdFromPasskeyId P pk₁ pp₁ cid₁ =
      deriveContractIdFromPasskeyId P pk₂ pp₂ cid₂ := by
  subst hpk
  subst hpp
  subst hcid
  rfl

/-- C2 witness: the determinism theorem applied to concrete inputs. -/
theorem deriveContractId_deterministic_witness :
    deriveContractIdFromPasskeyId testPrimitives ("GSUBMITTER") ("Test Net") ("credA") =
      deriveContractIdFromPasskeyId testPrimitives ("GSUBMITTER") ("Test Net") ("credA") :=
  deriveContractId_deterministic testPrimitives
    ("GSUBMITTER") ("Test Net") ("credA") ("GSUBMITTER") ("Test Net") ("credA") rfl rfl rfl

/-- C3: for every decoded COSE map whose (key-type, algorithm) label
pair is outside {(2, -7), (3, -257)} — including maps where either label
is absent or not an integer — the key extractor fails with the
"Unsupported COSE key" error naming the looked-up key type and
algorithm; no other algorithm is attempted. -/
theorem extract_unsupported_pair_fails (m : Int → Option CoseVal)
    (hES : ¬(m 1 = some (.int 2) ∧ m 3 = some (.int (-7))))
    (hRS : ¬(m 1 = some (.int 3) ∧ m 3 = some (.int (-257)))) :
    extractRawPublicKeyFromCose m = .error (.unsupported (m 1) (m 3)) := by
  unfold extractRawPublicKeyFromCose
  rw [if_neg hES, if_neg hRS]

/-- C3 witness: an OKP/EdDSA map (kty 1, alg -8) is rejected as
unsupported with both labels reported. -/
theorem extract_unsupported_pair_fails_witness :
    extractRawPublicKeyFromCose okpMap =
      .error (.unsupported (some (.int 1)) (some (.int (-8)))) :=
  extract_unsupported_pair_fails okpMap (by decide) (by decide)

/-- C4 counterexample: an ES256 COSE map whose x coordinate is present
but an empty byte string.  The claim says the extractor fails with
`MalformedKey`; the code's `if (!x || !y)` check uses JS truthiness, and
an empty `Uint8Array` is truthy, so the extractor accepts the key and
returns `0x04 ‖ y` (here `[0x04, 20]`). -/
theorem extract_es256_empty_coordinate_accepted :
    extractRawPublicKeyFromCose es256EmptyXMap = .ok [4, 20] := by decide

/-- C4 (amended): for every COSE map with key-type 2 and algorithm -7
(ES256) where the x or y coordinate field is absent, and for every map
with key-type 3 and algorithm -257 (RS256) where the modulus or exponent
field is absent, the key extractor fails with the corresponding
malformed-key error rather than emitting a key.  (Present-but-empty byte
strings are accepted, not rejected: an empty `Uint8Array` is truthy.) -/
theorem extract_absent_field_malformed (m : Int → Option CoseVal) :
    (m 1 = some (.int 2) → m 3 = some (.int (-7)) →
      m (-2) = none ∨ m (-3) = none →
      extractRawPublicKeyFromCose m = .error .malformedES256) ∧
    (m 1 = some (.int 3) → m 3 = some (.int (-257)) →
      m (-1) = none ∨ m (-2) = none →
      extractRawPublicKeyFromCose m = .error .malformedRS256) := by
  constructor
  · intro hkty halg habs
    unfold extractRawPublicKeyFromCose
    rw [if_pos ⟨hkty, halg⟩]
    rcases habs with h | h <;> simp [h, truthyOpt]
  · intro hkty halg habs
    unfold extractRawPublicKeyFromCose
    rw [if_neg (by simp [hkty]), if_pos ⟨hkty, halg⟩]
    rcases habs with h | h <;> simp [h, truthyOpt]

/-- C4 witness: an ES256 map with no x coordinate fails with the
malformed-ES256 error. -/
theorem extract_absent_field_malformed_witness :
    extractRawPublicKeyFromCose es256MissingXMap = .error .malformedES256 :=
  (extract_absent_field_malformed es256MissingXMap).1
    (by decide) (by decide) (Or.inl (by decide))

/-- C5: the authData slicing fails for every buffer shorter than the
55-byte fixed prefix (the `DataView` length read refuses to touch bytes
past the end), and more generally fails with a `MalformedAuthData`
error whenever the buffer is shorter than 55 bytes plus the declared
credential-id length. -/
theorem coseKeySlice_short_buffer_fails (buf : List Nat) :
    (buf.length < 55 → coseKeySliceOfAuthData buf = .error .rangeError) ∧
    (buf.length < 55 + declaredCredIdLen buf →
      ∃ e : MalformedAuthData, coseKeySliceOfAuthData buf = .error e) := by
  constructor
  · intro h
    unfold coseKeySliceOfAuthData
    rw [if_pos h]
  · intro h
    unfold coseKeySliceOfAuthData
    by_cases h55 : buf.length < 55
    · rw [if_pos h55]
      exact ⟨.rangeError, rfl⟩
    · rw [if_neg h55]
      have hdrop : (buf.drop (55 + declaredCredIdLen buf)).length = 0 := by
        rw [List.length_drop]
        omega
      exact ⟨.coseKeyNotFound, by simp [hdrop]⟩

/-- C5 witness: a 54-byte buffer fails on the length read, and a
56-byte buffer whose declared credential-id length exceeds the remainder
also fails. -/
theorem coseKeySlice_short_buffer_fails_witness :
    coseKeySliceOfAuthData (List.replicate 54 0) = .error .rangeError ∧
      ∃ e : MalformedAuthData,
        coseKeySliceOfAuthData (List.replicate 54 0) = .error e :=
  ⟨(coseKeySlice_short_buffer_fails (List.replicate 54 0)).1 (by decide),
    (coseKeySlice_short_buffer_fails (List.replicate 54 0)).2 (by decide)⟩

/-- C7 counterexample: the claim says `xlmToStroops` fails with
`InvalidAmount` for inputs that are not positive; the code performs no
validation at all — it returns the subunit count 0 for input 0 and a
negative subunit count for input -1 (both inputs and both products are
exactly representable doubles, so no rounding is involved here). -/
theorem xlmToStroops_no_validation :
    xlmToStroops 0 = 0 ∧ xlmToStroops (-1) = -10000000 :=
  ⟨xlmToStroops_zero, xlmToStroops_neg_one⟩

/-- C7 (amended): `xlmToStroops` never fails — no positivity or
finiteness check exists, zero and negative amounts are converted like
any other value — and for every double input it returns the binary64
product of the input and 10,000,000 rounded half-up to an integer,
which is within 1/2 plus one half-ulp of the product (`|x·10⁷| / 2^53`)
of the exact scaling.  The plain nearest-integer bound of 1/2 holds
only when the product is exactly representable; the double rounding at
92233720368.5477 exceeds it. -/
theorem xlmToStroops_rounds_within_double_ulp (x : ℚ) :
    |(xlmToStroops x : ℚ) - x * 10000000| ≤ 1 / 2 + |x * 10000000| / 2 ^ 53 := by
  unfold xlmToStroops jsMathRound
  have h1 := roundToDouble_err (x * 10000000)
  set p := roundToDouble (x * 10000000) with hp
  have h2 : |(⌊p + 1 / 2⌋ : ℚ) - p| ≤ 1 / 2 := by
    rw [abs_le]
    constructor
    · have h := Int.lt_floor_add_one (p + 1 / 2)
      push_cast at h ⊢
      linarith
    · have h := Int.floor_le (p + 1 / 2)
      push_cast at h ⊢
      linarith
  calc |(⌊p + 1 / 2⌋ : ℚ) - x * 10000000|
      ≤ |(⌊p + 1 / 2⌋ : ℚ) - p| + |p - x * 10000000| := abs_sub_le _ _ _
    _ ≤ 1 / 2 + |x * 10000000| / 2 ^ 53 := add_le_add h2 h1

/-- C6: for every non-negative subunit count n, `stroopsToXlm` returns
exactly the decimal string obtained by integer quotient and remainder by
10,000,000, the remainder rendered as a 7-digit zero-padded fraction
with trailing zeros stripped and omitted entirely when zero
(`toBaseUnitSpec`, stated in the specification's words); in particular
the three golden values hold. -/
theorem stroopsToXlm_renders_quotient_remainder :
    (∀ n : Nat, stroopsToXlm (n : Int) = toBaseUnitSpec n) ∧
    stroopsToXlm 100000000 = "10" ∧
    stroopsToXlm 10000001 = "1.0000001" ∧
    stroopsToXlm 0 = "0" := by
  refine ⟨?_, by decide, by decide, by decide⟩
  intro n
  simp only [stroopsToXlm, toBaseUnitSpec]
  have h7 : ((10000000 : Nat) : Int) = 10000000 := by norm_num
  have hdiv : Int.tdiv (n : Int) 10000000 = ((n / 10000000 : Nat) : Int) := by
    rw [← h7, ← Int.ofNat_tdiv]
  have hmod : Int.tmod (n : Int) 10000000 = ((n % 10000000 : Nat) : Int) := by
    rw [← h7, ← Int.ofNat_tmod]
  rw [hdiv, hmod, intRepr_ofNat, intRepr_ofNat]
  by_cases hr : n % 10000000 = 0
  · rw [hr]
    have he : String.mk (stripTrailing '0' (padStart7 (decRepr 0)).data) = "" := by
      decide
    rw [he]
    simp
  · rw [if_neg hr, if_pos (fractionStr_ne_empty _ hr)]

/-- C8 counterexample: at the claim's own boundary value the round trip
does not recover the input.  The double nearest to 92233720368.5477 is
92233720368.547698974609375; its binary64 product with 10,000,000 is
exactly 922337203685476992, so the program renders
"92233720368.5476992" — not "92233720368.5477". -/
theorem unit_roundtrip_boundary_loses_precision :
    stroopsToXlm (xlmToStroops (roundToDouble (922337203685477 / 10000))) =
        "92233720368.5476992" ∧
      stroopsToXlm (xlmToStroops (roundToDouble (922337203685477 / 10000))) ≠
        "92233720368.5477" := by
  rw [roundToDouble_boundary_amount, xlmToStroops_boundary_double]
  exact ⟨by decide, by decide⟩

/-- C8 (amended): the round trip `stroopsToXlm (xlmToStroops x)`
recovers x to 7-decimal precision for the amounts 0, 0.0000001 and 50
(whose products with 10,000,000 round to exact integers in binary64);
at 92233720368.5477 — the boundary of a 64-bit signed subunit count —
the double product rounds to 922337203685476992 and the round trip
returns "92233720368.5476992", losing the final decimal.  Each input
is taken as the double the decimal literal denotes (`roundToDouble` of
the exact decimal). -/
theorem unit_conversion_roundtrip_double_values :
    stroopsToXlm (xlmToStroops (roundToDouble 0)) = "0" ∧
    stroopsToXlm (xlmToStroops (roundToDouble (1 / 10000000))) = "0.0000001" ∧
    stroopsToXlm (xlmToStroops (roundToDouble 50)) = "50" ∧
    stroopsToXlm (xlmToStroops (roundToDouble (922337203685477 / 10000))) =
      "92233720368.5476992" := by
  refine ⟨?_, ?_, ?_, ?_⟩
  · rw [roundToDouble_zero, xlmToStroops_zero]
    decide
  · rw [roundToDouble_one_ten_millionth, xlmToStroops_one_ten_millionth_double]
    decide
  · rw [roundToDouble_fifty, xlmToStroops_fifty]
    decide
  · rw [roundToDouble_boundary_amount, xlmToStroops_boundary_double]
    decide

/-- C9: whenever the simulation endpoint's response lacks transaction
data, `addFunds` fails with the simulation-failed error, its network
trace contains only the simulate call, and the send-transaction call is
never reached — no fallback fee estimate exists. -/
theorem addFunds_simulation_failure_never_sends
    {Tx TxData SendResult : Type} (env : TransferEnv Tx TxData SendResult)
    (cid : String) (amt : ℚ)
    (hsim : env.simulate (env.buildTmpTx cid (xlmToStroops amt)) = none) :
    addFunds env (some cid) (some amt) = (.error .simulationFailed, [.simulate]) ∧
      RpcEvent.send ∉ (addFunds env (some cid) (some amt)).2 := by
  have h : addFunds env (some cid) (some amt) =
      (.error .simulationFailed, [.simulate]) := by
    simp [addFunds, hsim]
  refine ⟨h, ?_⟩
  rw [h]
  simp

/-- C9 witness: a concrete environment whose simulation always lacks
transaction data. -/
theorem addFunds_simulation_failure_never_sends_witness :
    addFunds simFailEnv (some ("CCONTRACT")) (some 5) =
        (.error .simulationFailed, [.simulate]) ∧
      RpcEvent.send ∉ (addFunds simFailEnv (some ("CCONTRACT")) (some 5)).2 :=
  addFunds_simulation_failure_never_sends simFailEnv ("CCONTRACT") 5 rfl

/-- C10: for every byte array, decoding its base64url encoding recovers
it exactly — `base64urlToArrayBuffer (toBase64Url b) = b` — even though
`toBase64Url` strips all trailing padding characters. -/
theorem base64url_roundtrip_recovers_bytes (bytes : List Nat)
    (h : ∀ b ∈ bytes, b < 256) :
    base64urlToArrayBuffer (toBase64Url bytes) = bytes := by
  simp only [base64urlToArrayBuffer, toBase64Url]
  have hl : ∀ l : List Char, (String.mk l).length = l.length := fun l => rfl
  have hstrip : stripTrailing '=' ((btoaBytes bytes).map urlify) =
      (stripTrailing '=' (btoaBytes bytes)).map urlify :=
    stripTrailing_map urlify '=' _ urlify_beq_eq
  have hmapback : ((stripTrailing '=' (btoaBytes bytes)).map urlify).map deurlify =
      stripTrailing '=' (btoaBytes bytes) := by
    rw [List.map_map]
    have hpt : ∀ x ∈ stripTrailing '=' (btoaBytes bytes),
        (deurlify ∘ urlify) x = id x := by
      intro x hx
      have hxs := stripTrailing_subset _ _ x hx
      rcases btoaBytes_mem bytes x hxs with ⟨n, rfl⟩ | rfl
      · exact deurlify_urlify_b64Char n
      · decide
    rw [List.map_congr_left hpt, List.map_id]
  have hlenmod := btoaBytes_length_mod4 bytes
  have hle2 := btoaBytes_strip_le2 bytes
  have hlenle := stripTrailing_length_le '=' (btoaBytes bytes)
  have htarget : ((stripTrailing '=' (btoaBytes bytes)).length + 3) / 4 * 4
      = (btoaBytes bytes).length := by omega
  rw [hl, hstrip, hmapback, List.length_map, htarget,
    stripTrailing_append_replicate]
  exact atob_btoa bytes h

/-- C10 witness: a 5-byte credential id containing bytes that exercise
the URL-safe substitutions and a stripped padding character. -/
theorem base64url_roundtrip_recovers_bytes_witness :
    base64urlToArrayBuffer (toBase64Url [72, 255, 0, 1, 250]) = [72, 255, 0, 1, 250] :=
  base64url_roundtrip_recovers_bytes [72, 255, 0, 1, 250] (by decide)

end PasskeyDemo
